import Mathlib

/-!
Shallow embedding of the decision-journal mobile client's pure logic
(tag parsing, numeric input parsing, return-rate arithmetic, category
label lookup, derived statistics, outcome-submission validation) and
proofs of the specified properties.

Strings from the source are modelled as `List Char`; JavaScript numbers
are idealised as `ℚ` (exact rational arithmetic, no IEEE-754 rounding or
overflow).  `null`/`undefined` results are modelled with `Option`.
-/

namespace JudgementLog

/-! ### JavaScript string primitives used by the client -/

/-- The whitespace characters recognised by `String.prototype.trim`
(restricted to the ASCII ones that can occur in the app's text inputs). -/
def isJsWS (c : Char) : Bool :=
  c == ' ' || c == '\t' || c == '\n' || c == '\r' || c == '\x0b' || c == '\x0c'

/-- `value.trim()`: drop whitespace from both ends (right end first;
the order of the two passes does not matter). -/
def jsTrim (cs : List Char) : List Char :=
  ((cs.reverse.dropWhile isJsWS).reverse).dropWhile isJsWS

/-- `value.replace(/,/g, "")`: remove every comma. -/
def stripCommas (cs : List Char) : List Char :=
  cs.filter (fun c => c != ',')

/-! ### A model of `Number.parseFloat` over exact rationals -/

def isDigitCh (c : Char) : Bool := '0' ≤ c && c ≤ '9'

def digitVal (c : Char) : ℕ := c.toNat - '0'.toNat

/-- Value of a digit string read in base 10. -/
def digitsVal (ds : List Char) : ℕ :=
  ds.foldl (fun acc d => 10 * acc + digitVal d) 0

/-- Read an optional leading sign; `true` means negated. -/
def readSign : List Char → Bool × List Char
  | '-' :: rest => (true, rest)
  | '+' :: rest => (false, rest)
  | cs => (false, cs)

/-- Read an optional exponent part (`e`/`E`, optional sign, digits).
A malformed exponent contributes nothing, matching the longest-valid-por
tion rule of `parseFloat` (e.g. `"1e"` parses as `1`). -/
def readExp (cs : List Char) : ℤ :=
  match cs with
  | 'e' :: rest => readExpAfterMark rest
  | 'E' :: rest => readExpAfterMark rest
  | _ => 0
where
  readExpAfterMark (rest : List Char) : ℤ :=
    let s := readSign rest
    let ds := s.2.takeWhile isDigitCh
    if ds = [] then 0
    else if s.1 then -(digitsVal ds : ℤ) else (digitsVal ds : ℤ)

/-- `10 ^ e` over `ℚ` for a signed exponent. -/
def pow10 (e : ℤ) : ℚ :=
  if 0 ≤ e then ((10 : ℚ) ^ e.toNat) else 1 / ((10 : ℚ) ^ (-e).toNat)

/-- `Number.parseFloat` followed by the `Number.isFinite` guard:
parse the longest leading decimal literal; `none` models `NaN` (no
digits at all) as well as the infinities (an `Infinity` literal never
begins with a digit or a dot, so it also falls into `none`).
IEEE-754 overflow to infinity is not modelled: values are exact. -/
def parseFiniteFloat (cs : List Char) : Option ℚ :=
  let cs0 := cs.dropWhile isJsWS
  let s := readSign cs0
  let intDs := s.2.takeWhile isDigitCh
  let rest1 := s.2.dropWhile isDigitCh
  let fracDs := match rest1 with
    | '.' :: r => r.takeWhile isDigitCh
    | _ => []
  let rest2 := match rest1 with
    | '.' :: r => r.dropWhile isDigitCh
    | _ => rest1
  if intDs = [] ∧ fracDs = [] then none
  else
    let e := readExp rest2
    let mant : ℚ := (digitsVal intDs : ℚ) + (digitsVal fracDs : ℚ) / (10 : ℚ) ^ fracDs.length
    let v := mant * pow10 e
    some (if s.1 then -v else v)

/-- `parseNumberInput` (app/record.tsx, app/outcome.tsx, app/detail.tsx):
strip commas, trim, parse; `none` models the `null` returned when the
result is not a finite number. -/
def parseNumberInput (cs : List Char) : Option ℚ :=
  parseFiniteFloat (jsTrim (stripCommas cs))

/-! ### Return rate (app/outcome.tsx, app/detail.tsx) -/

/-- `Math.round`: nearest integer, halves toward positive infinity. -/
def jsRound (x : ℚ) : ℤ := ⌊x + 1 / 2⌋

inductive TradeAction where
  | buy
  | sell
deriving DecidableEq

/-- `calcReturnRate(entry, exit, action)`:
`null` when `entry <= 0`, otherwise `Math.round(raw * 1000) / 10` where
`raw` is `(entry-exit)/entry` for a sell and `(exit-entry)/entry` for a buy. -/
def calcReturnRate (entry exitP : ℚ) (action : TradeAction) : Option ℚ :=
  if entry ≤ 0 then none
  else
    let raw := match action with
      | .sell => (entry - exitP) / entry
      | .buy => (exitP - entry) / entry
    some ((jsRound (raw * 1000) : ℚ) / 10)

/-- Spec-side formula: round a value to one decimal place (half up). -/
def roundTo1dpSpec (x : ℚ) : ℚ := (jsRound (x * 10) : ℚ) / 10

/-- Spec-side formula: the return rate as a percentage,
`((entry-exit)/entry)*100` for a sell and `((exit-entry)/entry)*100` for a buy. -/
def returnRatePctSpec (entry exitP : ℚ) (action : TradeAction) : ℚ :=
  100 * (match action with
    | .sell => (entry - exitP) / entry
    | .buy => (exitP - entry) / entry)

/-! ### Category/label registry (lib/categories.ts) -/

structure ResultLabels where
  positive : String
  negative : String
  neutral : String
deriving DecidableEq

structure Category where
  id : String
  name : String
  resultLabels : ResultLabels
deriving DecidableEq

def CATEGORIES : List Category :=
  [ ⟨"invest", "투자", ⟨"승", "패", "본전"⟩⟩
  , ⟨"health", "건강", ⟨"성공", "실패", "부분 성공"⟩⟩
  , ⟨"study", "학습", ⟨"잘 됨", "안 됨", "보통"⟩⟩
  , ⟨"shopping", "쇼핑", ⟨"만족", "후회", "애매"⟩⟩
  , ⟨"career", "커리어", ⟨"좋았음", "별로", "모르겠음"⟩⟩
  , ⟨"daily", "일상", ⟨"좋은 선택", "나쁜 선택", "그냥 그랬음"⟩⟩
  , ⟨"relationship", "인간관계", ⟨"좋았음", "불편했음", "애매"⟩⟩ ]

def DEFAULT_LABELS : ResultLabels := ⟨"긍정", "부정", "중립"⟩

/-- `getCategory(categoryId)`: first registry entry whose id equals the
given id (`undefined` is modelled as `none` and matches no entry). -/
def getCategory (categoryId : Option String) : Option Category :=
  CATEGORIES.find? (fun c => some c.id == categoryId)

/-- `getResultLabels(categoryId)`: the found category's labels, or the
generic default triple. -/
def getResultLabels (categoryId : Option String) : ResultLabels :=
  match getCategory categoryId with
  | some c => c.resultLabels
  | none => DEFAULT_LABELS

/-! ### Tag selection (components/TagSelector.tsx) -/

def MAX : ℕ := 5

/-- `toggle(tag)`: `some newSelection` models a call to `onChange`;
`none` models the early return (no `onChange`, selection unchanged). -/
def toggle (selected : List String) (tag : String) : Option (List String) :=
  if tag ∈ selected then some (selected.filter (fun t => t != tag))
  else if MAX ≤ selected.length then none
  else some (selected ++ [tag])

/-! ### Tag parsing (app/detail.tsx `parseTags`, app/record.tsx `buildPayload`) -/

/-- `raw.split(",").map(t => t.trim()).filter(Boolean)`. -/
def splitTrimFilter (raw : List Char) : List (List Char) :=
  ((raw.splitOn ',').map jsTrim).filter (fun t => t != [])

/-- `Array.from(new Set(arr))`: keep the first occurrence of each
element, in insertion order. -/
def setDedup (l : List (List Char)) : List (List Char) :=
  match l with
  | [] => []
  | a :: rest => a :: setDedup (rest.filter (fun x => x != a))
termination_by l.length
decreasing_by
  simp only [List.length_cons]
  exact Nat.lt_succ_of_le (List.length_filter_le _ _)

/-- `parseTags(raw)` (app/detail.tsx): split, trim, drop empties, dedupe. -/
def parseTags (raw : List Char) : List (List Char) :=
  setDedup (splitTrimFilter raw)

/-- The `tags` field built by `buildPayload` (app/record.tsx): split,
trim, drop empties — no dedupe; the empty input gives `[]`. -/
def buildPayloadTags (tags : List Char) : List (List Char) :=
  if tags = [] then [] else splitTrimFilter tags

/-! ### Decision records and the review-screen statistics (app/review.tsx) -/

inductive DecisionResult where
  | pending
  | positive
  | negative
  | neutral
deriving DecidableEq

structure Decision where
  categoryId : String
  confidence : ℚ
  result : DecisionResult
deriving DecidableEq

def isCompleted (d : Decision) : Bool := d.result != .pending

def isPositive (d : Decision) : Bool := d.result == .positive

structure RateStat where
  total : ℕ
  rate : ℚ
deriving DecidableEq

/-- The overall block of `stats` (app/review.tsx): completed decisions,
positive count among them, and `overallRate = overallTotal > 0 ?
overallPositive / overallTotal : 0`. -/
def overallStat (all : List Decision) : RateStat :=
  let completed := all.filter isCompleted
  let overallTotal := completed.length
  let overallPositive := (completed.filter isPositive).length
  ⟨overallTotal, if 0 < overallTotal then (overallPositive : ℚ) / (overallTotal : ℚ) else 0⟩

/-! ### Weekly report summaries and deltas (app/weekly unnamed screen) -/

/-- `safeNumber(v)`: a missing / non-finite / non-number value becomes 0. -/
def safeNumber (v : Option ℚ) : ℚ := v.getD 0

/-- `calcRate(count, total)`: percentage, 0 when the denominator is not positive. -/
def calcRate (count total : ℚ) : ℚ :=
  if total ≤ 0 then 0 else count / total * 100

structure CountsQ where
  total : ℚ
  completed : ℚ
  pending : ℚ
deriving DecidableEq

structure ResultCountsQ where
  positive : ℚ
  negative : ℚ
  neutral : ℚ
  pending : ℚ
deriving DecidableEq

structure ConfRow where
  confidence : ℚ
  total : ℚ
  positiveRate : ℚ
deriving DecidableEq

structure WeekSummary where
  counts : CountsQ
  resultCounts : ResultCountsQ
  confidenceAvg : ℚ
  confidenceRows : List ConfRow
deriving DecidableEq

structure CountDelta where
  total : ℚ
  completed : ℚ
  pending : ℚ
deriving DecidableEq

structure ResultRateDelta where
  positive : ℚ
  negative : ℚ
  neutral : ℚ
  pending : ℚ
deriving DecidableEq

structure ConfLevelDelta where
  confidence : ℚ
  totalDelta : ℚ
  positiveRateDelta : ℚ
deriving DecidableEq

structure WeekDelta where
  countDelta : CountDelta
  resultDelta : ResultCountsQ
  resultRateDelta : ResultRateDelta
  confidenceAvgDelta : ℚ
  confidenceLevelDelta : List ConfLevelDelta
deriving DecidableEq

/-- The `delta` memo of the weekly report screen: signed differences of
counts, of result counts, of result rates (via `calcRate` over the
week's total), of the average confidence, and per-confidence-level
deltas looked up with `find` (absent level ⇒ 0 via `safeNumber`). -/
def delta (cur prev : WeekSummary) : WeekDelta :=
  { countDelta :=
      ⟨cur.counts.total - prev.counts.total
      , cur.counts.completed - prev.counts.completed
      , cur.counts.pending - prev.counts.pending⟩
  , resultDelta :=
      ⟨cur.resultCounts.positive - prev.resultCounts.positive
      , cur.resultCounts.negative - prev.resultCounts.negative
      , cur.resultCounts.neutral - prev.resultCounts.neutral
      , cur.resultCounts.pending - prev.resultCounts.pending⟩
  , resultRateDelta :=
      ⟨calcRate cur.resultCounts.positive cur.counts.total
          - calcRate prev.resultCounts.positive prev.counts.total
      , calcRate cur.resultCounts.negative cur.counts.total
          - calcRate prev.resultCounts.negative prev.counts.total
      , calcRate cur.resultCounts.neutral cur.counts.total
          - calcRate prev.resultCounts.neutral prev.counts.total
      , calcRate cur.resultCounts.pending cur.counts.total
          - calcRate prev.resultCounts.pending prev.counts.total⟩
  , confidenceAvgDelta := cur.confidenceAvg - prev.confidenceAvg
  , confidenceLevelDelta :=
      ([1, 2, 3, 4, 5] : List ℚ).map (fun level =>
        let c := cur.confidenceRows.find? (fun r => r.confidence == level)
        let p := prev.confidenceRows.find? (fun r => r.confidence == level)
        ⟨level
        , safeNumber (c.map ConfRow.total) - safeNumber (p.map ConfRow.total)
        , safeNumber (c.map ConfRow.positiveRate) - safeNumber (p.map ConfRow.positiveRate)⟩) }

/-- Spec-side formula for a weekly result rate: `100 * (count / total)`
as percentage points, 0 when the denominator is not positive. -/
def weekRatePctSpec (count total : ℚ) : ℚ :=
  if total ≤ 0 then 0 else 100 * (count / total)

/-- Positive rate of a summary's confidence bucket, 0 when the level is
absent (spec: `safeNumber(row?.positiveRate)`). -/
def bucketRate (s : WeekSummary) (level : ℚ) : ℚ :=
  safeNumber ((s.confidenceRows.find? (fun r => r.confidence == level)).map ConfRow.positiveRate)

/-- Bucket total of a summary's confidence bucket, 0 when absent. -/
def bucketTotal (s : WeekSummary) (level : ℚ) : ℚ :=
  safeNumber ((s.confidenceRows.find? (fun r => r.confidence == level)).map ConfRow.total)

/-! ### Analysis-screen confidence rows (app/analysis.tsx) -/

/-- One raw element of `data.confidenceStats` as received from the
server; `none` fields model absent or non-finite values. -/
structure ConfStatIn where
  confidence : Option ℚ
  total : Option ℚ
  positiveRate : Option ℚ
deriving DecidableEq

/-- The per-element mapping of the `confidenceRows` memo. -/
def confStatOut (x : ConfStatIn) : ConfRow :=
  ⟨safeNumber x.confidence, safeNumber x.total, safeNumber x.positiveRate⟩

/-- `confidenceRows` (app/analysis.tsx): copy, map through `safeNumber`,
and stable-sort ascending by confidence (`(a, b) => a.confidence -
b.confidence`); the spread copy means the input array is not mutated. -/
def confidenceRows (arr : List ConfStatIn) : List ConfRow :=
  (arr.map confStatOut).mergeSort (fun a b => a.confidence ≤ b.confidence)

/-! ### Outcome submission (app/outcome.tsx `submit`) -/

inductive FinalResult where
  | positive
  | negative
  | neutral
deriving DecidableEq

structure OutcomeMeta where
  symbol : Option (List Char)
  action : TradeAction
  marketCondition : Option String
  entryPrice : Option ℚ
  exitPrice : Option ℚ
deriving DecidableEq

/-- Observable effect of one `submit` call: an error banner, an
informational banner (no request sent), or the `PATCH` issued through
`updateDecisionResult`. -/
inductive SubmitEffect where
  | errorBanner (msg : String)
  | infoBanner (msg : String)
  | patch (result : FinalResult) (confidence : ℚ) (meta : Option OutcomeMeta)
deriving DecidableEq

/-- The `submit` handler of the outcome screen, with its guards in
source order: missing id → error banner; no result selected → info
banner; for the invest category, empty or unparsable entry/exit price →
info banner; otherwise the PATCH with the chosen result, confidence and
recomputed invest meta. -/
def submit (id : Option String) (result : Option FinalResult) (isInvest : Bool)
    (symbol : List Char) (action : TradeAction) (marketCondition : Option String)
    (entryPrice exitPrice : List Char) (confidence : ℚ) : SubmitEffect :=
  match id with
  | none => .errorBanner "잘못된 접근입니다. (id 없음)"
  | some _ =>
    match result with
    | none => .infoBanner "결과를 선택해주세요."
    | some r =>
      if isInvest then
        if jsTrim entryPrice = [] then .infoBanner "매수가를 입력해주세요."
        else if jsTrim exitPrice = [] then .infoBanner "매도가를 입력해주세요."
        else
          match parseNumberInput entryPrice, parseNumberInput exitPrice with
          | some ev, some xv =>
            .patch r confidence
              (some ⟨if symbol = [] then none else some symbol, action,
                marketCondition, some ev, some xv⟩)
          | _, _ => .infoBanner "매수/매도 가격이 올바르지 않아요."
      else .patch r confidence none

/-! ### Helper lemmas -/

theorem stripCommas_append (s t : List Char) :
    stripCommas (s ++ t) = stripCommas s ++ stripCommas t := by
  simp [stripCommas]

theorem stripCommas_comma_cons (t : List Char) :
    stripCommas (',' :: t) = stripCommas t := by
  simp [stripCommas]

theorem jsTrim_ws_cons {c : Char} (h : isJsWS c = true) (cs : List Char) :
    jsTrim (c :: cs) = jsTrim cs := by
  unfold jsTrim
  rcases he : cs.reverse.dropWhile isJsWS with _ | ⟨x, xs⟩
  · simp [List.dropWhile_append, he, h]
  · simp [List.dropWhile_append, he, h]

theorem jsTrim_ws_concat {c : Char} (h : isJsWS c = true) (cs : List Char) :
    jsTrim (cs ++ [c]) = jsTrim cs := by
  unfold jsTrim
  simp [h]

theorem jsTrim_eq_nil_all_ws {cs : List Char} (h : jsTrim cs = []) :
    ∀ c ∈ cs, isJsWS c = true := by
  unfold jsTrim at h
  rw [List.dropWhile_eq_nil_iff] at h
  intro c hc
  have hsplit := List.takeWhile_append_dropWhile isJsWS cs.reverse
  have hc' : c ∈ cs.reverse := List.mem_reverse.mpr hc
  rw [← hsplit] at hc'
  rcases List.mem_append.mp hc' with hl | hr
  · exact List.mem_takeWhile_imp hl
  · exact h c (by simpa using hr)

theorem jsTrim_eq_nil_of_all_ws {cs : List Char} (h : ∀ c ∈ cs, isJsWS c = true) :
    jsTrim cs = [] := by
  unfold jsTrim
  have h1 : cs.reverse.dropWhile isJsWS = [] :=
    List.dropWhile_eq_nil_iff.mpr (fun x hx => h x (List.mem_reverse.mp hx))
  simp [h1]

theorem parseNumberInput_of_jsTrim_nil {cs : List Char} (h : jsTrim cs = []) :
    parseNumberInput cs = none := by
  have hall : ∀ c ∈ cs, isJsWS c = true := jsTrim_eq_nil_all_ws h
  have hstrip : ∀ c ∈ stripCommas cs, isJsWS c = true := by
    intro c hc
    exact hall c (List.mem_of_mem_filter hc)
  unfold parseNumberInput
  rw [jsTrim_eq_nil_of_all_ws hstrip]
  rfl

theorem jsTrim_ne_nil_of_parse {cs : List Char} {v : ℚ}
    (h : parseNumberInput cs = some v) : jsTrim cs ≠ [] := by
  intro hnil
  rw [parseNumberInput_of_jsTrim_nil hnil] at h
  exact Option.noConfusion h

/-! ### Claim theorems -/

/-- C4: `parseNumberInput` strips every comma and the surrounding
whitespace before parsing, returns the parsed number when it is finite
and no result otherwise; `"72,000"` parses to 72000 while `"abc"` and
`""` parse to no result. -/
theorem parseNumberInput_spec :
    (∀ s t : List Char, parseNumberInput (s ++ ',' :: t) = parseNumberInput (s ++ t))
    ∧ (∀ s : List Char, parseNumberInput (' ' :: s) = parseNumberInput s)
    ∧ (∀ s : List Char, parseNumberInput (s ++ [' ']) = parseNumberInput s)
    ∧ parseNumberInput ("72,000".toList) = some 72000
    ∧ parseNumberInput ("abc".toList) = none
    ∧ parseNumberInput ("".toList) = none := by
  refine ⟨fun s t => ?_, fun s => ?_, fun s => ?_,
    by simp [parseNumberInput, parseFiniteFloat, jsTrim, stripCommas, readSign, readExp,
      pow10, digitsVal, digitVal, isDigitCh, isJsWS],
    by simp [parseNumberInput, parseFiniteFloat, jsTrim, stripCommas, readSign, readExp,
      pow10, digitsVal, digitVal, isDigitCh, isJsWS],
    by simp [parseNumberInput, parseFiniteFloat, jsTrim, stripCommas, readSign, readExp,
      pow10, digitsVal, digitVal, isDigitCh, isJsWS]⟩
  · unfold parseNumberInput
    rw [stripCommas_append, stripCommas_comma_cons, stripCommas_append]
  · unfold parseNumberInput
    have h : stripCommas (' ' :: s) = ' ' :: stripCommas s := by simp [stripCommas]
    rw [h, jsTrim_ws_cons (by decide)]
  · unfold parseNumberInput
    have h : stripCommas (s ++ [' ']) = stripCommas s ++ [' '] := by simp [stripCommas]
    rw [h, jsTrim_ws_concat (by decide)]

/-- C1: `calcReturnRate` equals the spec percentage
(`(entry-exit)/entry` for a sell, `(exit-entry)/entry` for a buy, times
100) rounded to one decimal place, is `none` when the entry price is not
positive, and satisfies the three round-trip examples. -/
theorem calcReturnRate_spec :
    (∀ (entry exitP : ℚ) (a : TradeAction), calcReturnRate entry exitP a =
        if entry ≤ 0 then none
        else some (roundTo1dpSpec (returnRatePctSpec entry exitP a)))
    ∧ calcReturnRate 72000 76000 .buy = some (56 / 10)
    ∧ calcReturnRate 72000 76000 .sell = some (-(56 / 10))
    ∧ calcReturnRate 0 100 .buy = none := by
  refine ⟨fun entry exitP a => ?_, by norm_num [calcReturnRate, jsRound],
    by norm_num [calcReturnRate, jsRound], by norm_num [calcReturnRate]⟩
  unfold calcReturnRate roundTo1dpSpec returnRatePctSpec
  cases a <;>
  · split
    · rfl
    · simp only [Option.some.injEq]
      congr 2
      ring_nf

/-- C7: `getResultLabels` is a pure total lookup: a registered id maps
to its category's own label triple, any other id (including `none`,
modelling `undefined`) maps to the generic default triple
긍정/부정/중립, and no error path exists. -/
theorem getResultLabels_spec :
    (∀ c ∈ CATEGORIES, getResultLabels (some c.id) = c.resultLabels)
    ∧ (∀ cid : Option String,
        (∀ c ∈ CATEGORIES, cid ≠ some c.id) → getResultLabels cid = DEFAULT_LABELS)
    ∧ getResultLabels (some "music") = DEFAULT_LABELS
    ∧ getResultLabels none = DEFAULT_LABELS
    ∧ DEFAULT_LABELS = ⟨"긍정", "부정", "중립"⟩ := by
  refine ⟨by decide, fun cid h => ?_, by decide, by decide, rfl⟩
  have hfind : CATEGORIES.find? (fun c => some c.id == cid) = none := by
    rw [List.find?_eq_none]
    intro c hc
    simp only [beq_iff_eq]
    exact fun e => h c hc (e ▸ rfl)
  unfold getResultLabels getCategory
  rw [hfind]

/-- Witness for C7 at concrete inputs. -/
theorem getResultLabels_spec_witness :
    getResultLabels (some "invest") = ⟨"승", "패", "본전"⟩
    ∧ getResultLabels (some "music") = DEFAULT_LABELS :=
  ⟨getResultLabels_spec.1 ⟨"invest", "투자", ⟨"승", "패", "본전"⟩⟩ (by decide),
   getResultLabels_spec.2.1 (some "music") (by decide)⟩

theorem setDedup_sublist (l : List (List Char)) : (setDedup l).Sublist l := by
  induction l using setDedup.induct with
  | case1 => simp [setDedup]
  | case2 a rest ih =>
    rw [setDedup]
    exact (ih.trans (List.filter_sublist rest)).cons₂ a

theorem mem_setDedup (l : List (List Char)) (x : List Char) :
    x ∈ setDedup l ↔ x ∈ l := by
  induction l using setDedup.induct with
  | case1 => simp [setDedup]
  | case2 a rest ih =>
    rw [setDedup]
    by_cases hx : x = a
    · simp [hx]
    · simp [List.mem_cons, hx, ih, List.mem_filter, bne_iff_ne]

theorem setDedup_nodup (l : List (List Char)) : (setDedup l).Nodup := by
  induction l using setDedup.induct with
  | case1 => simp [setDedup]
  | case2 a rest ih =>
    rw [setDedup]
    refine List.Nodup.cons ?_ ih
    intro hmem
    have := (mem_setDedup _ _).mp hmem
    rw [List.mem_filter] at this
    simp [bne_iff_ne] at this

/-- C6 counterexample: the tags array `buildPayload` (app/record.tsx)
sends for the raw input `"a,a"` contains a case-sensitive duplicate —
the create path never collapses duplicates. -/
theorem buildPayloadTags_duplicate :
    buildPayloadTags ("a,a".toList) = ["a".toList, "a".toList]
    ∧ ¬ (buildPayloadTags ("a,a".toList)).Nodup := by
  constructor
  · decide
  · decide

unseal setDedup in
/-- C6 amended: `parseTags` (app/detail.tsx) splits on commas, trims,
drops empties and collapses duplicates keeping the first occurrence in
order, so its output is always duplicate-free; but `buildPayload`
(app/record.tsx) only splits, trims and drops empties, so the tags
array sent when creating a decision can contain duplicates. -/
theorem parseTags_amended :
    (∀ raw, (parseTags raw).Nodup)
    ∧ (∀ raw, (parseTags raw).Sublist (splitTrimFilter raw))
    ∧ (∀ raw x, x ∈ parseTags raw ↔ x ∈ splitTrimFilter raw)
    ∧ parseTags ("a, b ,a,,b".toList) = ["a".toList, "b".toList]
    ∧ buildPayloadTags ("a,a".toList) = ["a".toList, "a".toList] := by
  refine ⟨fun raw => setDedup_nodup _, fun raw => setDedup_sublist _,
    fun raw x => mem_setDedup _ _, by decide, by decide⟩

/-- C9: toggling a tag that is not selected while the selection already
holds `MAX = 5` or more tags triggers no `onChange`, and a selection of
size at most 5 can never grow beyond 5 through toggles. -/
theorem toggle_cap_spec :
    (∀ (s : List String) (t : String), t ∉ s → MAX ≤ s.length → toggle s t = none)
    ∧ (∀ (s : List String) (t : String),
        s.length ≤ MAX → ((toggle s t).getD s).length ≤ MAX) := by
  constructor
  · intro s t hmem hlen
    unfold toggle
    rw [if_neg hmem, if_pos hlen]
  · intro s t hlen
    unfold toggle
    by_cases hmem : t ∈ s
    · rw [if_pos hmem]
      exact le_trans (List.length_filter_le _ _) hlen
    · rw [if_neg hmem]
      by_cases hcap : MAX ≤ s.length
      · rw [if_pos hcap]
        exact hlen
      · rw [if_neg hcap]
        have : s.length < MAX := Nat.lt_of_not_le hcap
        simp only [Option.getD_some, List.length_append, List.length_singleton]
        omega

/-- Witness for C9 at concrete inputs. -/
theorem toggle_cap_spec_witness :
    toggle ["a", "b", "c", "d", "e"] "f" = none
    ∧ ((toggle ["a"] "b").getD ["a"]).length ≤ MAX :=
  ⟨toggle_cap_spec.1 ["a", "b", "c", "d", "e"] "f" (by decide) (by decide),
   toggle_cap_spec.2 ["a"] "b" (by decide)⟩

/-- C10: for a selection with fewer than 5 tags and a tag not in it,
the first toggle appends the tag at the end and a second toggle removes
it again by filtering, restoring exactly the original list. -/
theorem toggle_roundtrip (s : List String) (t : String)
    (h1 : t ∉ s) (h2 : s.length < MAX) :
    toggle s t = some (s ++ [t]) ∧ toggle (s ++ [t]) t = some s := by
  constructor
  · unfold toggle
    rw [if_neg h1, if_neg (Nat.not_le.mpr h2)]
  · unfold toggle
    rw [if_pos (List.mem_append.mpr (Or.inr (List.mem_singleton.mpr rfl)))]
    have hs : s.filter (fun x => x != t) = s := by
      rw [List.filter_eq_self]
      intro x hx
      simp only [bne_iff_ne, ne_eq, decide_eq_true_eq]
      exact fun e => h1 (e ▸ hx)
    rw [List.filter_append, hs]
    simp

/-- Witness for C10 at concrete inputs. -/
theorem toggle_roundtrip_witness :
    toggle ["a"] "b" = some (["a"] ++ ["b"]) ∧ toggle (["a"] ++ ["b"]) "b" = some ["a"] :=
  toggle_roundtrip ["a"] "b" (by decide) (by decide)

theorem filter_isPositive_isCompleted (all : List Decision) :
    (all.filter isCompleted).filter isPositive = all.filter isPositive := by
  rw [List.filter_filter]
  apply List.filter_congr
  intro d _
  cases h : d.result <;> simp [isPositive, isCompleted, h]

theorem overallStat_rate_eq (all : List Decision) :
    (overallStat all).rate =
      if 0 < (all.filter isCompleted).length
      then ((all.filter isPositive).length : ℚ) / ((all.filter isCompleted).length : ℚ)
      else 0 := by
  show (if 0 < (all.filter isCompleted).length
      then (((all.filter isCompleted).filter isPositive).length : ℚ)
        / ((all.filter isCompleted).length : ℚ)
      else 0) = _
  rw [filter_isPositive_isCompleted]

/-- C2: the review screen's positive-rate computation over a decision
list equals `count(result=positive) / count(result≠pending)` exactly,
stays in `[0,1]`, and is 0 (a number, not NaN or undefined) when no
decision is completed. -/
theorem positiveRate_spec :
    (∀ all : List Decision, (overallStat all).rate =
        if 0 < (all.filter isCompleted).length
        then ((all.filter isPositive).length : ℚ) / ((all.filter isCompleted).length : ℚ)
        else 0)
    ∧ (∀ all : List Decision, 0 ≤ (overallStat all).rate ∧ (overallStat all).rate ≤ 1)
    ∧ (∀ all : List Decision,
        (all.filter isCompleted).length = 0 → (overallStat all).rate = 0) := by
  refine ⟨overallStat_rate_eq, fun all => ?_, fun all h => ?_⟩
  · rw [overallStat_rate_eq]
    split
    · rename_i hpos
      have hle : (all.filter isPositive).length ≤ (all.filter isCompleted).length := by
        rw [← filter_isPositive_isCompleted]
        exact List.length_filter_le _ _
      constructor
      · exact div_nonneg (Nat.cast_nonneg _) (Nat.cast_nonneg _)
      · rw [div_le_one (by exact_mod_cast hpos)]
        exact_mod_cast hle
    · norm_num
  · rw [overallStat_rate_eq, h]
    norm_num

/-- Witness for C2 at a concrete input (empty completed set). -/
theorem positiveRate_spec_witness : (overallStat []).rate = 0 :=
  positiveRate_spec.2.2 [] rfl

theorem calcRate_eq_spec (c t : ℚ) : calcRate c t = weekRatePctSpec c t := by
  unfold calcRate weekRatePctSpec
  split
  · rfl
  · ring

/-- C3: the weekly `delta` computes signed differences current minus
previous for every count, and for every result category and confidence
bucket a percentage-point difference `currentRate - previousRate`; with
current total 10 against previous 6 the total delta is 4, and with a
40% current positive rate against 25% the positive-rate delta is +15
percentage points, not a ratio. -/
theorem delta_spec :
    (∀ cur prev : WeekSummary, (delta cur prev).countDelta =
        ⟨cur.counts.total - prev.counts.total,
         cur.counts.completed - prev.counts.completed,
         cur.counts.pending - prev.counts.pending⟩)
    ∧ (∀ cur prev : WeekSummary, (delta cur prev).resultRateDelta =
        ⟨weekRatePctSpec cur.resultCounts.positive cur.counts.total
            - weekRatePctSpec prev.resultCounts.positive prev.counts.total,
         weekRatePctSpec cur.resultCounts.negative cur.counts.total
            - weekRatePctSpec prev.resultCounts.negative prev.counts.total,
         weekRatePctSpec cur.resultCounts.neutral cur.counts.total
            - weekRatePctSpec prev.resultCounts.neutral prev.counts.total,
         weekRatePctSpec cur.resultCounts.pending cur.counts.total
            - weekRatePctSpec prev.resultCounts.pending prev.counts.total⟩)
    ∧ (∀ cur prev : WeekSummary, ∀ d ∈ (delta cur prev).confidenceLevelDelta,
        d.totalDelta = bucketTotal cur d.confidence - bucketTotal prev d.confidence
        ∧ d.positiveRateDelta = bucketRate cur d.confidence - bucketRate prev d.confidence)
    ∧ (delta ⟨⟨10, 7, 3⟩, ⟨4, 2, 1, 3⟩, 3, []⟩
        ⟨⟨6, 4, 2⟩, ⟨1, 2, 1, 2⟩, 3, []⟩).countDelta.total = 4
    ∧ (delta ⟨⟨10, 7, 3⟩, ⟨4, 2, 1, 3⟩, 3, []⟩
        ⟨⟨4, 3, 1⟩, ⟨1, 1, 1, 1⟩, 3, []⟩).resultRateDelta.positive = 15 := by
  refine ⟨fun cur prev => rfl, fun cur prev => ?_, fun cur prev d hd => ?_, ?_, ?_⟩
  · simp [delta, calcRate_eq_spec]
  · simp only [delta, List.mem_map] at hd
    obtain ⟨level, hlv, rfl⟩ := hd
    exact ⟨rfl, rfl⟩
  · norm_num [delta, calcRate]
  · norm_num [delta, calcRate]

/-- Witness for C3's per-bucket clause at a concrete input. -/
theorem delta_spec_witness :
    (⟨1, 0, 0⟩ : ConfLevelDelta).totalDelta =
        bucketTotal ⟨⟨0, 0, 0⟩, ⟨0, 0, 0, 0⟩, 0, []⟩ (⟨1, 0, 0⟩ : ConfLevelDelta).confidence
          - bucketTotal ⟨⟨0, 0, 0⟩, ⟨0, 0, 0, 0⟩, 0, []⟩ (⟨1, 0, 0⟩ : ConfLevelDelta).confidence
    ∧ (⟨1, 0, 0⟩ : ConfLevelDelta).positiveRateDelta =
        bucketRate ⟨⟨0, 0, 0⟩, ⟨0, 0, 0, 0⟩, 0, []⟩ (⟨1, 0, 0⟩ : ConfLevelDelta).confidence
          - bucketRate ⟨⟨0, 0, 0⟩, ⟨0, 0, 0, 0⟩, 0, []⟩ (⟨1, 0, 0⟩ : ConfLevelDelta).confidence :=
  delta_spec.2.2.1 ⟨⟨0, 0, 0⟩, ⟨0, 0, 0, 0⟩, 0, []⟩ ⟨⟨0, 0, 0⟩, ⟨0, 0, 0, 0⟩, 0, []⟩
    ⟨1, 0, 0⟩ (by norm_num [delta, safeNumber])

unseal List.merge List.mergeSort in
/-- C8: the displayed confidence rows are exactly the buckets present in
the server data (a permutation of the mapped input — absent levels are
never zero-filled), sorted ascending by confidence level; the embedding
is a pure function of the input list, which the source protects from
mutation by sorting a spread copy. -/
theorem confidenceRows_spec :
    (∀ arr, (confidenceRows arr).Perm (arr.map confStatOut))
    ∧ (∀ arr, (confidenceRows arr).Pairwise (fun a b => a.confidence ≤ b.confidence))
    ∧ (∀ arr (c : ℚ), (∀ x ∈ arr, (confStatOut x).confidence ≠ c) →
        ∀ row ∈ confidenceRows arr, row.confidence ≠ c)
    ∧ confidenceRows [⟨some 5, some 2, some 50⟩, ⟨some 1, some 4, some 25⟩, ⟨none, some 1, none⟩]
        = [⟨0, 1, 0⟩, ⟨1, 4, 25⟩, ⟨5, 2, 50⟩] := by
  refine ⟨fun arr => List.mergeSort_perm _ _, fun arr => ?_, fun arr c h row hrow => ?_, by decide⟩
  · have htrans : ∀ a b c : ConfRow,
        (decide (a.confidence ≤ b.confidence)) → (decide (b.confidence ≤ c.confidence)) →
        (decide (a.confidence ≤ c.confidence)) := by
      intro a b c h1 h2
      simp only [decide_eq_true_eq] at h1 h2 ⊢
      exact le_trans h1 h2
    have htotal : ∀ a b : ConfRow,
        (decide (a.confidence ≤ b.confidence)) || (decide (b.confidence ≤ a.confidence)) := by
      intro a b
      simp only [Bool.or_eq_true, decide_eq_true_eq]
      exact le_total _ _
    have h := @List.sorted_mergeSort ConfRow
      (fun a b => decide (a.confidence ≤ b.confidence)) htrans htotal (arr.map confStatOut)
    exact h.imp (fun hab => by simpa using hab)
  · intro hc
    have hmem : row ∈ arr.map confStatOut := (List.mergeSort_perm _ _).subset hrow
    obtain ⟨x, hx, hxe⟩ := List.mem_map.mp hmem
    exact h x hx (hxe ▸ hc)

/-- Witness for C8's omission clause at a concrete input. -/
theorem confidenceRows_spec_witness :
    ∀ row ∈ confidenceRows [⟨some 2, some 1, some 100⟩], row.confidence ≠ 3 :=
  confidenceRows_spec.2.2.1 [⟨some 2, some 1, some 100⟩] 3 (by norm_num [confStatOut, safeNumber])

/-- C5: the outcome submission handler rejects a missing result
selection, and for the invest category an empty or unparsable
entry/exit price, with an informational banner (no PATCH is issued);
only when every check passes does it issue the PATCH carrying the
chosen result and confidence. -/
theorem submit_spec :
    (∀ (i : String) (isInvest : Bool) (symbol : List Char) (action : TradeAction)
        (mc : Option String) (entry exitP : List Char) (conf : ℚ),
      submit (some i) none isInvest symbol action mc entry exitP conf =
        .infoBanner "결과를 선택해주세요.")
    ∧ (∀ (i : String) (r : FinalResult) (symbol : List Char) (action : TradeAction)
        (mc : Option String) (entry exitP : List Char) (conf : ℚ),
      parseNumberInput entry = none ∨ parseNumberInput exitP = none →
      ∃ msg ∈ ["매수가를 입력해주세요.", "매도가를 입력해주세요.", "매수/매도 가격이 올바르지 않아요."],
        submit (some i) (some r) true symbol action mc entry exitP conf = .infoBanner msg)
    ∧ (∀ (i : String) (r : FinalResult) (symbol : List Char) (action : TradeAction)
        (mc : Option String) (entry exitP : List Char) (conf : ℚ) (ev xv : ℚ),
      parseNumberInput entry = some ev → parseNumberInput exitP = some xv →
      submit (some i) (some r) true symbol action mc entry exitP conf =
        .patch r conf (some ⟨if symbol = [] then none else some symbol, action, mc,
          some ev, some xv⟩))
    ∧ (∀ (i : String) (r : FinalResult) (symbol : List Char) (action : TradeAction)
        (mc : Option String) (entry exitP : List Char) (conf : ℚ),
      submit (some i) (some r) false symbol action mc entry exitP conf =
        .patch r conf none) := by
  refine ⟨fun i isInvest symbol action mc entry exitP conf => rfl,
    fun i r symbol action mc entry exitP conf hfail => ?_,
    fun i r symbol action mc entry exitP conf ev xv hev hxv => ?_,
    fun i r symbol action mc entry exitP conf => rfl⟩
  · by_cases h1 : jsTrim entry = []
    · exact ⟨"매수가를 입력해주세요.", by simp, by simp [submit, h1]⟩
    · by_cases h2 : jsTrim exitP = []
      · exact ⟨"매도가를 입력해주세요.", by simp, by simp [submit, h1, h2]⟩
      · refine ⟨"매수/매도 가격이 올바르지 않아요.", by simp, ?_⟩
        rcases he : parseNumberInput entry with _ | ev
        · simp [submit, h1, h2, he]
        · rcases hx : parseNumberInput exitP with _ | xv
          · simp [submit, h1, h2, he, hx]
          · rcases hfail with hf | hf
            · rw [he] at hf
              exact Option.noConfusion hf
            · rw [hx] at hf
              exact Option.noConfusion hf
  · have h1 : jsTrim entry ≠ [] := jsTrim_ne_nil_of_parse hev
    have h2 : jsTrim exitP ≠ [] := jsTrim_ne_nil_of_parse hxv
    simp [submit, h1, h2, hev, hxv]

/-- Witness for C5 at concrete inputs. -/
theorem submit_spec_witness :
    (∃ msg ∈ ["매수가를 입력해주세요.", "매도가를 입력해주세요.", "매수/매도 가격이 올바르지 않아요."],
      submit (some "id1") (some .positive) true [] .buy none
        ("abc".toList) ("100".toList) 3 = .infoBanner msg)
    ∧ submit (some "id1") (some .positive) true [] .buy none
        ("72,000".toList) ("76,000".toList) 3 =
      .patch .positive 3 (some ⟨if ([] : List Char) = [] then none else some [], .buy, none,
        some 72000, some 76000⟩) :=
  ⟨submit_spec.2.1 "id1" .positive [] .buy none ("abc".toList) ("100".toList) 3
      (Or.inl (by simp [parseNumberInput, parseFiniteFloat, jsTrim, stripCommas, readSign,
        readExp, pow10, digitsVal, digitVal, isDigitCh, isJsWS])),
   submit_spec.2.2.1 "id1" .positive [] .buy none ("72,000".toList) ("76,000".toList) 3
      72000 76000
      (by simp [parseNumberInput, parseFiniteFloat, jsTrim, stripCommas, readSign,
        readExp, pow10, digitsVal, digitVal, isDigitCh, isJsWS])
      (by simp [parseNumberInput, parseFiniteFloat, jsTrim, stripCommas, readSign,
        readExp, pow10, digitsVal, digitVal, isDigitCh, isJsWS])⟩

end JudgementLog
